import Mathlib

/-!
Shallow embedding of the `Dict` component of the DanielSvub/collection Go
library (src/dict.go and src/collection.go), together with proofs about the
claims of its specification.

Modelling conventions:
* A Go map value `map[K]V` is modelled as a list of key-value pairs in
  iteration order; Go guarantees key uniqueness, which theorems carry as a
  `(keysOf l).Nodup` hypothesis where it matters.
* The possibly-nil `val` field of the `mapDict` struct is an `Option` of such
  a list: `none` models a nil map (a never-initialized handle).
* A Go `panic` is modelled as an `Except.error` (or, for `Unset`, which
  mutates its receiver before panicking, as an `Option CollErr` paired with
  the receiver's state at the moment of the panic).
* Machine integers only occur as `int` keys/values and in `strconv`
  formatting; they are modelled as `Int` (no arithmetic in this component
  overflows).
-/

section CollectionModel

variable {K V N : Type}

/-- The panic conditions of src/dict.go: `assert` ("dictionary is not
initialized"), `checkKey` ("key ... does not exist") and `KeyOf`
("value ... not found"). -/
inductive CollErr where
  | uninitialized
  | keyError
  | valueError
deriving DecidableEq, Repr

/-- The backing store of a `mapDict` (src/dict.go:249-251): the Go field
`val map[K]V`. `none` models a nil map — the state `assert` tests for —
and `some l` models a map whose entries, in iteration order, are `l`. -/
abbrev DictVal (K V : Type) : Type := Option (List (K × V))

/-- Go map read `m[k]` without the default: the value stored at `k`, if any.
The first matching entry wins; real Go maps never hold a key twice. -/
def lookupKey [DecidableEq K] (k : K) : List (K × V) → Option V
  | [] => none
  | p :: rest => if p.1 = k then some p.2 else lookupKey k rest

/-- Go map write `m[k] = v`: overwrite the value if the key is present,
otherwise add a fresh entry. -/
def setEntry [DecidableEq K] : List (K × V) → K → V → List (K × V)
  | [], k, v => [(k, v)]
  | p :: rest, k, v => if p.1 = k then (p.1, v) :: rest else p :: setEntry rest k v

/-- Go `delete(m, k)`: remove the entry holding key `k`. -/
def deleteEntry [DecidableEq K] : List (K × V) → K → List (K × V)
  | [], _ => []
  | p :: rest, k => if p.1 = k then deleteEntry rest k else p :: deleteEntry rest k

/-- The keys of a store, in iteration order. -/
def keysOf (l : List (K × V)) : List K := l.map Prod.fst

/-- `NewDict` (src/dict.go:264-267): a fresh, initialized, empty dictionary. -/
def NewDict (K V : Type) : DictVal K V := some []

/-- `mapDict.Set` (src/dict.go:303-307): asserts initialization, then
`ego.getVal()[key] = value`. -/
def mapDict.Set [DecidableEq K] (d : DictVal K V) (k : K) (v : V) :
    Except CollErr (DictVal K V) :=
  match d with
  | none => .error .uninitialized
  | some l => .ok (some (setEntry l k v))

/-- The loop of `mapDict.Unset` (src/dict.go:309-316): for each key in order,
`checkKey` (panic with the key error if absent) then `delete`. Returns the
store as left by the loop together with the panic, if one occurred. -/
def mapDict.unsetLoop [DecidableEq K] :
    List (K × V) → List K → List (K × V) × Option CollErr
  | l, [] => (l, none)
  | l, k :: ks =>
    match lookupKey k l with
    | some _ => mapDict.unsetLoop (deleteEntry l k) ks
    | none => (l, some .keyError)

/-- `mapDict.Unset` (src/dict.go:309-316): asserts initialization, then runs
the delete loop. The receiver keeps the partially-mutated store when the
loop panics. -/
def mapDict.Unset [DecidableEq K] (d : DictVal K V) (keys : List K) :
    DictVal K V × Option CollErr :=
  match d with
  | none => (none, some .uninitialized)
  | some l =>
    match mapDict.unsetLoop l keys with
    | (l2, e) => (some l2, e)

/-- `mapDict.Clear` (src/dict.go:318-322): asserts initialization, then
replaces the store with a fresh empty map. -/
def mapDict.Clear (d : DictVal K V) : Except CollErr (DictVal K V) :=
  match d with
  | none => .error .uninitialized
  | some _ => .ok (some [])

/-- `mapDict.Get` (src/dict.go:324-328): asserts initialization, `checkKey`
(panic with the key error if absent), then reads the value. -/
def mapDict.Get [DecidableEq K] (d : DictVal K V) (k : K) : Except CollErr V :=
  match d with
  | none => .error .uninitialized
  | some l =>
    match lookupKey k l with
    | some v => .ok v
    | none => .error .keyError

/-- `mapDict.GoMap` (src/dict.go:343-346): asserts initialization and returns
the backing store. -/
def mapDict.GoMap (d : DictVal K V) : Except CollErr (List (K × V)) :=
  match d with
  | none => .error .uninitialized
  | some l => .ok l

/-- `mapDict.Keys` (src/dict.go:348-354). The source does not call `assert`
here: ranging over a nil Go map yields no iterations, which `getD []`
models. The `List` result type is modelled from the spec: `NewList` makes an
empty list and `Add` appends at the end (spec section 4.1), so the result is
the keys in iteration order. -/
def mapDict.Keys (d : DictVal K V) : List K := keysOf (d.getD [])

/-- `mapDict.Values` (src/dict.go:356-362). No `assert` in the source; nil
maps range over nothing. `List` modelled from the spec as for `Keys`. -/
def mapDict.Values (d : DictVal K V) : List V := (d.getD []).map Prod.snd

/-- The loop of `mapDict.Clone` (src/dict.go:364-370): `Set` every entry of
the source into a fresh dictionary. -/
def cloneEntries [DecidableEq K] (l : List (K × V)) : List (K × V) :=
  l.foldl (fun acc p => setEntry acc p.1 p.2) []

/-- `mapDict.Clone` (src/dict.go:364-370). The source does not call `assert`:
cloning a nil-map dictionary ranges over nothing and returns a fresh,
initialized, empty dictionary. -/
def mapDict.Clone [DecidableEq K] (d : DictVal K V) : DictVal K V :=
  some (cloneEntries (d.getD []))

/-- `mapDict.Count` (src/dict.go:372-375): asserts initialization, then
`len(ego.getVal())`. -/
def mapDict.Count (d : DictVal K V) : Except CollErr Nat :=
  match d with
  | none => .error .uninitialized
  | some l => .ok l.length

/-- `mapDict.Empty` (src/dict.go:377-379): `ego.Count() == 0`; the `Count`
call asserts initialization. -/
def mapDict.Empty (d : DictVal K V) : Except CollErr Bool :=
  match mapDict.Count d with
  | .error e => .error e
  | .ok n => .ok (decide (n = 0))

/-- `mapDict.Equals` (src/dict.go:381-391). `ego.Count()` asserts the
receiver, `another.Count()` asserts the argument; then for each key of the
receiver the source compares `ego.getVal()[k] != another.getVal()[k]`, where
a Go map read of an absent key yields the zero value of `V` — passed here
explicitly as `zero`. -/
def mapDict.Equals [DecidableEq K] [DecidableEq V] (zero : V)
    (d another : DictVal K V) : Except CollErr Bool :=
  match d with
  | none => .error .uninitialized
  | some la =>
    match another with
    | none => .error .uninitialized
    | some lb =>
      .ok (decide (la.length = lb.length) &&
        la.all (fun p =>
          decide ((lookupKey p.1 la).getD zero = (lookupKey p.1 lb).getD zero)))

/-- `mapDict.Merge` (src/dict.go:393-400): asserts the receiver, clones it,
then `another.ForEach` (which asserts the argument) `Set`s every field of
the argument into the clone. -/
def mapDict.Merge [DecidableEq K] (d another : DictVal K V) :
    Except CollErr (DictVal K V) :=
  match d with
  | none => .error .uninitialized
  | some la =>
    match another with
    | none => .error .uninitialized
    | some lb =>
      .ok (some (lb.foldl (fun acc p => setEntry acc p.1 p.2) (cloneEntries la)))

/-- The loop of `mapDict.Pluck` (src/dict.go:402-409): for each requested key
in order, `result.Set(key, ego.Get(key))`; `Get` panics with the key error
when the key is absent in the source. -/
def mapDict.pluckLoop [DecidableEq K] (l : List (K × V)) :
    List (K × V) → List K → Except CollErr (List (K × V))
  | acc, [] => .ok acc
  | acc, k :: ks =>
    match lookupKey k l with
    | some v => mapDict.pluckLoop l (setEntry acc k v) ks
    | none => .error .keyError

/-- `mapDict.Pluck` (src/dict.go:402-409): asserts initialization, then runs
the pluck loop on a fresh dictionary. -/
def mapDict.Pluck [DecidableEq K] (d : DictVal K V) (keys : List K) :
    Except CollErr (DictVal K V) :=
  match d with
  | none => .error .uninitialized
  | some l =>
    match mapDict.pluckLoop l [] keys with
    | .ok r => .ok (some r)
    | .error e => .error e

/-- `mapDict.Contains` (src/dict.go:411-419): asserts initialization, then a
linear scan of the values. -/
def mapDict.Contains [DecidableEq V] (d : DictVal K V) (v : V) :
    Except CollErr Bool :=
  match d with
  | none => .error .uninitialized
  | some l => .ok (l.any (fun p => decide (p.2 = v)))

/-- `mapDict.KeyOf` (src/dict.go:421-429): asserts initialization, returns
the first key (in iteration order) holding the value, panics with the value
error when none does. -/
def mapDict.KeyOf [DecidableEq V] (d : DictVal K V) (v : V) :
    Except CollErr K :=
  match d with
  | none => .error .uninitialized
  | some l =>
    match l.find? (fun p => decide (p.2 = v)) with
    | some p => .ok p.1
    | none => .error .valueError

/-- `mapDict.KeyExists` (src/dict.go:431-435): asserts initialization, then a
comma-ok map read. -/
def mapDict.KeyExists [DecidableEq K] (d : DictVal K V) (k : K) :
    Except CollErr Bool :=
  match d with
  | none => .error .uninitialized
  | some l => .ok (lookupKey k l).isSome

/-- `mapDict.ForEach` (src/dict.go:437-443): asserts initialization, then
applies the callback to every field in iteration order. Modelled by
returning the sequence of fields the callback visits; callers that
accumulate through the callback's side effects (`Merge`, `MapDict`) fold
over this sequence. -/
def mapDict.ForEach (d : DictVal K V) : Except CollErr (List (K × V)) :=
  match d with
  | none => .error .uninitialized
  | some l => .ok l

/-- `mapDict.Map` (src/dict.go:445-452): asserts initialization, then `Set`s
`(key, function(key, value))` for every field into a fresh dictionary. -/
def mapDict.Map [DecidableEq K] (d : DictVal K V) (fn : K → V → V) :
    Except CollErr (DictVal K V) :=
  match d with
  | none => .error .uninitialized
  | some l => .ok (some (l.foldl (fun acc p => setEntry acc p.1 (fn p.1 p.2)) []))

/-- The free function `MapDict` (src/collection.go:101-107): `dict.ForEach`
(which asserts the source) `Set`s `(key, function(key, value))` for every
field into a fresh dictionary of the new value type. -/
def MapDict [DecidableEq K] (d : DictVal K V) (fn : K → V → N) :
    Except CollErr (DictVal K N) :=
  match mapDict.ForEach d with
  | .error e => .error e
  | .ok l => .ok (some (l.foldl (fun acc p => setEntry acc p.1 (fn p.1 p.2)) []))

end CollectionModel

section Serializer

variable {K V : Type}

/-- The dynamic values the shared serializer `toString`
(src/collection.go:21-56) is applied to in the claims under study: the
`nil`, `string`, `bool` and integer arms of its type switch. Go's integer
types of every width all format as decimal digits and are collapsed into one
constructor over `Int`; the floating-point, `fmt.Stringer` and default arms
are not exercised by any claim and are not modelled. -/
inductive GoVal where
  | goNil
  | goStr (s : String)
  | goBool (b : Bool)
  | goInt (n : Int)
deriving DecidableEq, Repr

/-- Modelled from the spec: `strconv.Quote` of the Go standard library (an
external collaborator, not part of src/) — "string → quoted with standard
escaping" (spec section 4.4). Escapes the quote, the backslash and the
common control characters; remaining characters pass through unchanged,
which matches `strconv.Quote` on printable input. -/
def goQuoteChar (c : Char) : List Char :=
  if c = '"' then ['\\', '"']
  else if c = '\\' then ['\\', '\\']
  else if c = '\n' then ['\\', 'n']
  else if c = '\t' then ['\\', 't']
  else if c = '\r' then ['\\', 'r']
  else [c]

/-- Modelled from the spec: `strconv.Quote` — surrounding quotes plus
per-character escaping. -/
def goQuote (s : String) : String :=
  String.mk ('"' :: s.data.foldr (fun c acc => goQuoteChar c ++ acc) ['"'])

/-- `toString` (src/collection.go:21-56) on the modelled arms: `nil` to
`null`, strings via `strconv.Quote`, booleans via `strconv.FormatBool`,
integers as decimal digits via `strconv.Itoa`/`FormatInt`/`FormatUint`. -/
def goToString : GoVal → String
  | .goNil => "null"
  | .goStr s => goQuote s
  | .goBool b => if b then "true" else "false"
  | .goInt n => Int.repr n

/-- The field loop of `mapDict.String` (src/dict.go:330-341): each field is
rendered as key, colon, value, and a comma is appended exactly when more
fields remain (the source's `if i++; i < len(ego.getVal())`). -/
def stringFields (showK : K → String) (showV : V → String) :
    List (K × V) → String
  | [] => ""
  | p :: rest =>
    showK p.1 ++ ":" ++ showV p.2 ++ (if rest.isEmpty then "" else ",") ++
      stringFields showK showV rest

/-- `mapDict.String` (src/dict.go:330-341). The source does not call
`assert`: ranging over a nil map yields no fields and `len` of a nil map is
0, so a never-initialized dictionary serializes as the empty dictionary.
The serialization of keys and values (the source's generic `toString`) is
passed in as `showK`/`showV`. -/
def mapDict.String (showK : K → String) (showV : V → String)
    (d : DictVal K V) : String :=
  "\x7b" ++ stringFields showK showV (d.getD []) ++ "\x7d"

/-- Specification-side join (spec section 4.4 and claim C8): the given texts
separated by single commas, with no trailing comma. -/
def sepByComma : List String → String
  | [] => ""
  | [s] => s
  | s :: rest => s ++ "," ++ sepByComma rest

end Serializer

/-! ### Helper lemmas about the map primitives -/

section MapLemmas

variable {K V N : Type} [DecidableEq K]

lemma mem_keysOf_iff_lookup {k : K} :
    ∀ {l : List (K × V)}, k ∈ keysOf l ↔ (lookupKey k l).isSome := by
  intro l
  induction l with
  | nil => simp [keysOf, lookupKey]
  | cons p rest ih =>
    by_cases h : p.1 = k
    · simp [keysOf, lookupKey, h]
    · have hne : ¬ k = p.1 := fun hh => h hh.symm
      simp only [keysOf, List.map_cons, List.mem_cons, lookupKey, if_neg h]
      simp only [keysOf] at ih
      simp [hne, ih]

lemma lookup_setEntry (l : List (K × V)) (k k' : K) (v : V) :
    lookupKey k' (setEntry l k v) = if k = k' then some v else lookupKey k' l := by
  induction l with
  | nil =>
    by_cases h : k = k' <;> simp [setEntry, lookupKey, h]
  | cons p rest ih =>
    by_cases hp : p.1 = k
    · subst hp
      by_cases h : p.1 = k' <;> simp [setEntry, lookupKey, h]
    · by_cases h : p.1 = k'
      · subst h
        have hkk : ¬ k = p.1 := fun hh => hp hh.symm
        simp [setEntry, lookupKey, hp, hkk, ih]
      · simp [setEntry, lookupKey, hp, h, ih]

lemma setEntry_of_not_mem (l : List (K × V)) (k : K) (v : V)
    (h : k ∉ keysOf l) : setEntry l k v = l ++ [(k, v)] := by
  induction l with
  | nil => simp [setEntry]
  | cons p rest ih =>
    simp only [keysOf, List.map_cons, List.mem_cons, not_or] at h
    have hp : ¬ p.1 = k := fun hh => h.1 hh.symm
    simp only [setEntry, if_neg hp, List.cons_append, List.cons.injEq, true_and]
    exact ih (by simpa [keysOf] using h.2)

lemma lookup_deleteEntry (l : List (K × V)) (k k' : K) :
    lookupKey k' (deleteEntry l k) = if k' = k then none else lookupKey k' l := by
  induction l with
  | nil => by_cases h : k' = k <;> simp [deleteEntry, lookupKey, h]
  | cons p rest ih =>
    by_cases hp : p.1 = k
    · by_cases h : k' = k
      · subst h
        simp [deleteEntry, hp, ih]
      · have hpk : ¬ p.1 = k' := by
          intro hh
          exact h (by rw [← hh, hp])
        have hkk : ¬ k = k' := fun hh => h hh.symm
        simp [deleteEntry, lookupKey, hp, hpk, hkk, h, ih]
    · by_cases hk : p.1 = k'
      · have h : ¬ k' = k := by
          intro hh
          exact hp (hk.trans hh)
        simp [deleteEntry, lookupKey, hp, hk, h]
      · simp [deleteEntry, lookupKey, hp, hk, ih]

lemma mem_keysOf_deleteEntry {l : List (K × V)} {k k' : K} :
    k' ∈ keysOf (deleteEntry l k) ↔ k' ≠ k ∧ k' ∈ keysOf l := by
  rw [mem_keysOf_iff_lookup, lookup_deleteEntry]
  by_cases h : k' = k
  · simp [h]
  · rw [if_neg h, ← mem_keysOf_iff_lookup]
    simp [h]

lemma foldl_set_build (g : K → V → N) :
    ∀ (l : List (K × V)) (acc : List (K × N)),
      (keysOf l).Nodup → (∀ k ∈ keysOf l, k ∉ keysOf acc) →
      l.foldl (fun a p => setEntry a p.1 (g p.1 p.2)) acc =
        acc ++ l.map (fun p => (p.1, g p.1 p.2)) := by
  intro l
  induction l with
  | nil => intro acc _ _; simp
  | cons p rest ih =>
    intro acc hnd hdisj
    have hnd2 : (keysOf rest).Nodup := by
      simp only [keysOf, List.map_cons, List.nodup_cons] at hnd
      exact hnd.2
    have hhead : p.1 ∉ keysOf rest := by
      simp only [keysOf, List.map_cons, List.nodup_cons] at hnd
      exact hnd.1
    have hp : p.1 ∉ keysOf acc := hdisj p.1 (by simp [keysOf])
    have hstep : setEntry acc p.1 (g p.1 p.2) = acc ++ [(p.1, g p.1 p.2)] :=
      setEntry_of_not_mem acc p.1 _ hp
    have hdisj2 : ∀ k ∈ keysOf rest, k ∉ keysOf (acc ++ [(p.1, g p.1 p.2)]) := by
      intro k hk
      have hknotacc : k ∉ keysOf acc := by
        apply hdisj k
        simp only [keysOf, List.map_cons, List.mem_cons]
        exact Or.inr hk
      have hkne : ¬ k = p.1 := by
        intro hh
        exact hhead (hh ▸ hk)
      simp only [keysOf, List.map_append, List.mem_append, List.map_cons,
        List.map_nil, List.mem_singleton, not_or]
      exact ⟨hknotacc, hkne⟩
    simp only [List.foldl_cons, hstep, ih (acc ++ [(p.1, g p.1 p.2)]) hnd2 hdisj2]
    simp

lemma cloneEntries_eq_self (l : List (K × V)) (hnd : (keysOf l).Nodup) :
    cloneEntries l = l := by
  unfold cloneEntries
  rw [foldl_set_build (fun _ v => v) l [] hnd (by simp [keysOf])]
  simp

lemma lookup_foldl_set (lb : List (K × V)) (hnd : (keysOf lb).Nodup) :
    ∀ (acc : List (K × V)) (k : K),
      lookupKey k (lb.foldl (fun a p => setEntry a p.1 p.2) acc) =
        match lookupKey k lb with
        | some v => some v
        | none => lookupKey k acc := by
  induction lb with
  | nil => intro acc k; simp [lookupKey]
  | cons p rest ih =>
    intro acc k
    simp only [keysOf, List.map_cons, List.nodup_cons] at hnd
    have ih2 := ih (by simpa [keysOf] using hnd.2) (setEntry acc p.1 p.2) k
    simp only [List.foldl_cons, ih2, lookupKey]
    by_cases h : p.1 = k
    · subst h
      have : lookupKey p.1 rest = none := by
        by_contra hc
        have : (lookupKey p.1 rest).isSome := by
          cases hval : lookupKey p.1 rest with
          | none => exact absurd hval hc
          | some v => simp
        exact hnd.1 (by simpa [keysOf] using mem_keysOf_iff_lookup.2 this)
      simp [this, lookup_setEntry]
    · cases hval : lookupKey k rest with
      | none => simp [h, lookup_setEntry, fun hh : p.1 = k => h hh]
      | some v => simp [h]

lemma lookup_map_value (g : K → V → N) (k : K) :
    ∀ l : List (K × V),
      lookupKey k (l.map (fun p => (p.1, g p.1 p.2))) =
        match lookupKey k l with
        | some v => some (g k v)
        | none => none := by
  intro l
  induction l with
  | nil => simp [lookupKey]
  | cons p rest ih =>
    by_cases h : p.1 = k
    · subst h
      simp [lookupKey]
    · simp [lookupKey, h, ih]

end MapLemmas

/-! ### Lemmas about the Unset and Pluck loops and the serializer -/

section LoopLemmas

variable {K V : Type} [DecidableEq K]

lemma unsetLoop_snd_none_iff (ks : List K) :
    ∀ l : List (K × V),
      (mapDict.unsetLoop l ks).2 = none ↔
        (ks.Nodup ∧ ∀ k ∈ ks, k ∈ keysOf l) := by
  induction ks with
  | nil => intro l; simp [mapDict.unsetLoop]
  | cons k0 rest ih =>
    intro l
    cases hv : lookupKey k0 l with
    | none =>
      have hk0 : k0 ∉ keysOf l := by
        rw [mem_keysOf_iff_lookup, hv]
        simp
      simp only [mapDict.unsetLoop, hv]
      constructor
      · intro hc
        exact absurd hc (by simp)
      · intro hc
        exact absurd (hc.2 k0 (by simp)) hk0
    | some v =>
      simp only [mapDict.unsetLoop, hv]
      rw [ih (deleteEntry l k0)]
      constructor
      · rintro ⟨hnd, hsub⟩
        have hnotin : k0 ∉ rest := by
          intro hmem
          have hdel := hsub k0 hmem
          rw [mem_keysOf_deleteEntry] at hdel
          exact hdel.1 rfl
        refine ⟨List.nodup_cons.2 ⟨hnotin, hnd⟩, ?_⟩
        intro k hk
        rcases List.mem_cons.1 hk with hk | hk
        · subst hk
          rw [mem_keysOf_iff_lookup, hv]
          simp
        · exact (mem_keysOf_deleteEntry.1 (hsub k hk)).2
      · rintro ⟨hnd, hsub⟩
        have hnd' := List.nodup_cons.1 hnd
        refine ⟨hnd'.2, ?_⟩
        intro k hk
        rw [mem_keysOf_deleteEntry]
        constructor
        · intro hh
          subst hh
          exact hnd'.1 hk
        · exact hsub k (List.mem_cons_of_mem _ hk)

lemma unsetLoop_snd_cases (ks : List K) :
    ∀ l : List (K × V),
      (mapDict.unsetLoop l ks).2 = none ∨
        (mapDict.unsetLoop l ks).2 = some .keyError := by
  induction ks with
  | nil => intro l; simp [mapDict.unsetLoop]
  | cons k0 rest ih =>
    intro l
    cases hv : lookupKey k0 l with
    | none => simp [mapDict.unsetLoop, hv]
    | some v =>
      simp only [mapDict.unsetLoop, hv]
      exact ih _

lemma unsetLoop_fail_at_first_absent :
    ∀ (ks1 : List K) (l : List (K × V)) (k : K) (ks2 : List K),
      ks1.Nodup → (∀ k' ∈ ks1, k' ∈ keysOf l) → k ∉ keysOf l →
      mapDict.unsetLoop l (ks1 ++ k :: ks2) =
        (ks1.foldl deleteEntry l, some .keyError) := by
  intro ks1
  induction ks1 with
  | nil =>
    intro l k ks2 _ _ habs
    have hv : lookupKey k l = none := by
      cases hval : lookupKey k l with
      | none => rfl
      | some v => exact absurd (mem_keysOf_iff_lookup.2 (by simp [hval])) habs
    simp [mapDict.unsetLoop, hv]
  | cons k0 rest ih =>
    intro l k ks2 hnd hpres habs
    have hk0 : k0 ∈ keysOf l := hpres k0 (by simp)
    obtain ⟨v, hv⟩ : ∃ v, lookupKey k0 l = some v := by
      cases hval : lookupKey k0 l with
      | none =>
        rw [mem_keysOf_iff_lookup, hval] at hk0
        simp at hk0
      | some v => exact ⟨v, rfl⟩
    have hnd' := List.nodup_cons.1 hnd
    have hpres2 : ∀ k' ∈ rest, k' ∈ keysOf (deleteEntry l k0) := by
      intro k' hk'
      rw [mem_keysOf_deleteEntry]
      exact ⟨fun hh => hnd'.1 (hh ▸ hk'), hpres k' (List.mem_cons_of_mem _ hk')⟩
    have habs2 : k ∉ keysOf (deleteEntry l k0) := by
      rw [mem_keysOf_deleteEntry]
      intro hc
      exact habs hc.2
    simp only [List.cons_append, mapDict.unsetLoop, hv, List.foldl_cons]
    exact ih (deleteEntry l k0) k ks2 hnd'.2 hpres2 habs2

lemma lookup_foldl_delete (ks : List K) :
    ∀ (l : List (K × V)) (k' : K),
      lookupKey k' (ks.foldl deleteEntry l) =
        if k' ∈ ks then none else lookupKey k' l := by
  induction ks with
  | nil => intro l k'; simp
  | cons k0 rest ih =>
    intro l k'
    simp only [List.foldl_cons, ih]
    by_cases h : k' ∈ rest
    · simp [h]
    · by_cases h0 : k' = k0
      · simp [h, h0, lookup_deleteEntry]
      · simp [h, h0, lookup_deleteEntry]

lemma pluckLoop_ok (l : List (K × V)) :
    ∀ ks : List K, (∀ k ∈ ks, k ∈ keysOf l) →
    ∀ acc : List (K × V),
      ∃ r, mapDict.pluckLoop l acc ks = .ok r ∧
        ∀ k', lookupKey k' r =
          if k' ∈ ks then lookupKey k' l else lookupKey k' acc := by
  intro ks
  induction ks with
  | nil =>
    intro _ acc
    exact ⟨acc, rfl, by simp⟩
  | cons k0 rest ih =>
    intro hpres acc
    have hk0 : k0 ∈ keysOf l := hpres k0 (by simp)
    obtain ⟨v, hv⟩ : ∃ v, lookupKey k0 l = some v := by
      cases hval : lookupKey k0 l with
      | none =>
        rw [mem_keysOf_iff_lookup, hval] at hk0
        simp at hk0
      | some v => exact ⟨v, rfl⟩
    obtain ⟨r, hr, hlook⟩ :=
      ih (fun k hk => hpres k (List.mem_cons_of_mem _ hk)) (setEntry acc k0 v)
    refine ⟨r, ?_, ?_⟩
    · simp only [mapDict.pluckLoop, hv]
      exact hr
    · intro k'
      rw [hlook k']
      by_cases h : k' ∈ rest
      · simp [h]
      · by_cases h0 : k' = k0
        · subst h0
          simp [h, lookup_setEntry, hv]
        · have h0' : ¬ k0 = k' := fun hh => h0 hh.symm
          simp [h, h0, h0', lookup_setEntry]

lemma pluckLoop_error (l : List (K × V)) :
    ∀ (ks : List K) (acc : List (K × V)),
      (∃ k ∈ ks, k ∉ keysOf l) →
      mapDict.pluckLoop l acc ks = .error .keyError := by
  intro ks
  induction ks with
  | nil =>
    intro acc h
    simp at h
  | cons k0 rest ih =>
    intro acc h
    cases hv : lookupKey k0 l with
    | none => simp [mapDict.pluckLoop, hv]
    | some v =>
      simp only [mapDict.pluckLoop, hv]
      apply ih
      rcases h with ⟨k, hk, habs⟩
      rcases List.mem_cons.1 hk with hk | hk
      · subst hk
        exact absurd (mem_keysOf_iff_lookup.2 (by simp [hv])) habs
      · exact ⟨k, hk, habs⟩

lemma stringFields_eq_sepByComma {A B : Type}
    (showK : A → String) (showV : B → String) :
    ∀ l : List (A × B),
      stringFields showK showV l =
        sepByComma (l.map (fun p => showK p.1 ++ ":" ++ showV p.2)) := by
  intro l
  induction l with
  | nil => rfl
  | cons p rest ih =>
    cases rest with
    | nil => simp [stringFields, sepByComma]
    | cons q rest2 =>
      have hstep : stringFields showK showV (p :: q :: rest2) =
          showK p.1 ++ ":" ++ showV p.2 ++ "," ++
            stringFields showK showV (q :: rest2) := by
        simp [stringFields]
      rw [hstep, ih]
      simp [sepByComma]

end LoopLemmas

/-! ### Further helper lemmas -/

section MoreLemmas

variable {K V : Type} [DecidableEq K]

lemma lookup_of_mem_nodup {la : List (K × V)} (hnd : (keysOf la).Nodup)
    {p : K × V} (hp : p ∈ la) : lookupKey p.1 la = some p.2 := by
  induction la with
  | nil => cases hp
  | cons q rest ih =>
    have hnd2 : (keysOf rest).Nodup := by
      simp only [keysOf, List.map_cons, List.nodup_cons] at hnd
      exact hnd.2
    rcases List.mem_cons.1 hp with hp | hp
    · subst hp
      simp [lookupKey]
    · have hq : ¬ q.1 = p.1 := by
        intro hh
        have hmem : p.1 ∈ keysOf rest := by
          simp only [keysOf, List.mem_map]
          exact ⟨p, hp, rfl⟩
        simp only [keysOf, List.map_cons, List.nodup_cons] at hnd
        apply hnd.1
        rw [hh]
        exact hmem
      simp [lookupKey, hq, ih hnd2 hp]

end MoreLemmas

/-! ### The claims -/

/-- Claim C1 is refuted on the code: `String`, `Keys`, `Values` and `Clone`
never call `assert` (src/dict.go:330-341, 348-354, 356-362, 364-370), so on
a dictionary whose backing store is absent they do not fail with
UninitializedError; each returns normally, as evaluated here on the nil
store: `String` serializes the empty dictionary, `Keys` and `Values` return
empty lists, and `Clone` returns a fresh initialized empty dictionary. -/
theorem C1_counterexample :
    mapDict.String Int.repr Int.repr (none : DictVal Int Int) = "\x7b\x7d" ∧
    mapDict.Keys (none : DictVal Int Int) = [] ∧
    mapDict.Values (none : DictVal Int Int) = [] ∧
    mapDict.Clone (none : DictVal Int Int) = some [] :=
  ⟨rfl, rfl, rfl, rfl⟩

/-- Claim C1 (amended): every Dict operation other than the constructors
except `String`, `Keys`, `Values` and `Clone` — that is, `Set`, `Unset`,
`Clear`, `Get`, `GoMap`, `Count`, `Empty`, `Equals`, `Merge`, `Pluck`,
`Contains`, `KeyOf`, `KeyExists`, `ForEach` and `Map` — fails immediately
with UninitializedError when invoked on a Dict whose backing store is
absent, before touching the store; `String`, `Keys`, `Values` and `Clone`
do not check initialization and instead treat the absent store as empty. -/
theorem C1_assert_coverage {K V : Type} [DecidableEq K] [DecidableEq V]
    (k : K) (v : V) (ks : List K) (b : DictVal K V) (z : V)
    (fn : K → V → V) (showK : K → String) (showV : V → String) :
    mapDict.Set (none : DictVal K V) k v = .error .uninitialized ∧
    mapDict.Unset (none : DictVal K V) ks = (none, some .uninitialized) ∧
    mapDict.Clear (none : DictVal K V) = .error .uninitialized ∧
    mapDict.Get (none : DictVal K V) k = .error .uninitialized ∧
    mapDict.GoMap (none : DictVal K V) = .error .uninitialized ∧
    mapDict.Count (none : DictVal K V) = .error .uninitialized ∧
    mapDict.Empty (none : DictVal K V) = .error .uninitialized ∧
    mapDict.Equals z (none : DictVal K V) b = .error .uninitialized ∧
    mapDict.Merge (none : DictVal K V) b = .error .uninitialized ∧
    mapDict.Pluck (none : DictVal K V) ks = .error .uninitialized ∧
    mapDict.Contains (none : DictVal K V) v = .error .uninitialized ∧
    mapDict.KeyOf (none : DictVal K V) v = .error .uninitialized ∧
    mapDict.KeyExists (none : DictVal K V) k = .error .uninitialized ∧
    mapDict.ForEach (none : DictVal K V) = .error .uninitialized ∧
    mapDict.Map (none : DictVal K V) fn = .error .uninitialized ∧
    mapDict.String showK showV (none : DictVal K V) = "\x7b\x7d" ∧
    mapDict.Keys (none : DictVal K V) = [] ∧
    mapDict.Values (none : DictVal K V) = [] ∧
    mapDict.Clone (none : DictVal K V) = some [] :=
  ⟨rfl, rfl, rfl, rfl, rfl, rfl, rfl, rfl, rfl, rfl, rfl, rfl, rfl, rfl, rfl,
    rfl, rfl, rfl, rfl⟩

/-- Specification-side equality predicate, following claim C2's words
literally: same field count and, for every key present in `la`, `lb` holds
that key with an equal value. -/
def specDictEquals [DecidableEq K] [DecidableEq V]
    (la lb : List (K × V)) : Prop :=
  la.length = lb.length ∧ ∀ p ∈ la, lookupKey p.1 lb = some p.2

/-- Claim C2 is refuted on the code: with a = the store mapping 0 to 0 and 1
to 1 and b = the store mapping 1 to 1 and 2 to 5, `a.Equals(b)` returns true
although b holds no value at key 0 (the source compares against the Go zero
value instead), so the claimed iff fails at this input. -/
theorem C2_counterexample :
    mapDict.Equals (0 : Int)
        (some [((0 : Int), (0 : Int)), (1, 1)])
        (some [((1 : Int), (1 : Int)), (2, 5)]) = .ok true ∧
    ¬ specDictEquals [((0 : Int), (0 : Int)), (1, 1)]
        [((1 : Int), (1 : Int)), (2, 5)] ∧
    lookupKey (0 : Int) [((1 : Int), (1 : Int)), (2, 5)] = none := by
  refine ⟨rfl, ?_, rfl⟩
  intro h
  have h0 := h.2 (0, 0) (by simp)
  simp [lookupKey] at h0

/-- Claim C2 (amended): for every pair of initialized dicts a and b (a
carrying the Go-map key-uniqueness invariant), `a.Equals(b)` returns true if
and only if a and b have the same field count and, for every key k present
in a, the value a holds at k equals the value b holds at k when k is
present in b, and equals the zero value of V when k is absent in b; a key
present only in b is not separately checked. -/
theorem C2_equals_spec {K V : Type} [DecidableEq K] [DecidableEq V]
    (la lb : List (K × V)) (z : V) (hnd : (keysOf la).Nodup) :
    mapDict.Equals z (some la) (some lb) = .ok true ↔
      (la.length = lb.length ∧ ∀ p ∈ la, (lookupKey p.1 lb).getD z = p.2) := by
  simp only [mapDict.Equals, Except.ok.injEq, Bool.and_eq_true,
    decide_eq_true_eq, List.all_eq_true]
  constructor
  · rintro ⟨hlen, hall⟩
    refine ⟨hlen, fun p hp => ?_⟩
    have h := hall p hp
    rw [lookup_of_mem_nodup hnd hp] at h
    simpa using h.symm
  · rintro ⟨hlen, hall⟩
    refine ⟨hlen, fun p hp => ?_⟩
    rw [lookup_of_mem_nodup hnd hp]
    simpa using (hall p hp).symm

/-- Witness for the amended claim C2 at a concrete input. -/
theorem C2_equals_spec_witness :
    mapDict.Equals (0 : Int)
        (some [((1 : Int), (1 : Int))]) (some [((1 : Int), (1 : Int))]) =
      .ok true :=
  (C2_equals_spec [((1 : Int), (1 : Int))] [((1 : Int), (1 : Int))] 0
    (by decide)).mpr (by decide)

/-- Claim C6 is refuted on the code: `KeyExists` calls `assert`
(src/dict.go:431-435), so on a dictionary whose backing store is absent it
panics with the uninitialized error instead of returning a boolean. -/
theorem C6_counterexample :
    mapDict.KeyExists (none : DictVal Int Int) 0 = .error .uninitialized :=
  rfl

/-- Claim C6 (amended): for every initialized dict and every key, `KeyExists`
returns true when the key is present and false when it is absent, without
raising any error. -/
theorem C6_keyexists_total {K V : Type} [DecidableEq K]
    (l : List (K × V)) (k : K) :
    (mapDict.KeyExists (some l) k = .ok true ↔ k ∈ keysOf l) ∧
    (mapDict.KeyExists (some l) k = .ok false ↔ k ∉ keysOf l) := by
  constructor
  · rw [mem_keysOf_iff_lookup]
    simp [mapDict.KeyExists]
  · rw [mem_keysOf_iff_lookup]
    simp [mapDict.KeyExists]

/-- Claim C9: `Equals` is not symmetric. With a = the store mapping "x" to 0
and "y" to 1 and b = the store mapping "y" to 1 and "z" to 5 (equal field
counts), `a.Equals(b)` is true — the key "x" absent in b is compared against
the zero value of the value type — while `b.Equals(a)` is false. -/
theorem C9_equals_asymmetric :
    mapDict.Equals (0 : Int)
        (some [("x", (0 : Int)), ("y", 1)])
        (some [("y", (1 : Int)), ("z", 5)]) = .ok true ∧
    mapDict.Equals (0 : Int)
        (some [("y", (1 : Int)), ("z", 5)])
        (some [("x", (0 : Int)), ("y", 1)]) = .ok false := by
  constructor
  · rfl
  · rfl

/-- Claim C3: when `Unset` is called on an initialized dict where the keys
before position i (pairwise distinct) are all present and the key at
position i is absent, the call fails with KeyError at that first absent key,
and every key earlier in the argument list has already been removed at that
point — the final store is the original with exactly the earlier keys
deleted, with no rollback. -/
theorem C3_unset_fail_fast {K V : Type} [DecidableEq K]
    (l : List (K × V)) (ks1 ks2 : List K) (k : K)
    (hnd : ks1.Nodup) (hpres : ∀ k' ∈ ks1, k' ∈ keysOf l)
    (habs : k ∉ keysOf l) :
    mapDict.Unset (some l) (ks1 ++ k :: ks2) =
      (some (ks1.foldl deleteEntry l), some .keyError) ∧
    ∀ k', lookupKey k' (ks1.foldl deleteEntry l) =
      if k' ∈ ks1 then none else lookupKey k' l := by
  constructor
  · have h := unsetLoop_fail_at_first_absent ks1 l k ks2 hnd hpres habs
    simp [mapDict.Unset, h]
  · exact fun k' => lookup_foldl_delete ks1 l k'

/-- Witness for claim C3 at a concrete input: unsetting keys 1, 3, 2 of the
store mapping 1 to 10 and 2 to 20 fails at the absent key 3, with key 1
already removed and key 2 still present. -/
theorem C3_unset_fail_fast_witness :
    mapDict.Unset (some [((1 : Int), (10 : Int)), (2, 20)]) ([1] ++ 3 :: [2]) =
      (some [((2 : Int), (20 : Int))], some .keyError) :=
  (C3_unset_fail_fast [((1 : Int), (10 : Int)), (2, 20)] [1] [2] 3
    (by decide) (by decide) (by decide)).1

/-- Claim C4 is refuted on the code at the `Unset` clause: unsetting the key
list 0, 0 on the store mapping 0 to 1 fails with KeyError although the only
given key, 0, is present in the dict — the first occurrence removes it and
the second occurrence then fails. -/
theorem C4_counterexample :
    (mapDict.Unset (some [((0 : Int), (1 : Int))]) [0, 0]).2 =
      some .keyError ∧
    (0 : Int) ∈ keysOf [((0 : Int), (1 : Int))] := by
  constructor
  · rfl
  · decide

/-- Claim C4 (amended): on an initialized dict, `Get` fails with KeyError iff
the requested key is absent; `Unset` fails with KeyError iff the given keys
are not a duplicate-free list of present keys (equivalently, iff some given
key is absent from the dict at the moment that key is processed); `Pluck`
fails with KeyError iff some requested key is absent in the source; and when
no requested key is absent, `Pluck` returns a new dict whose field set is
exactly the requested keys with the source's values. -/
theorem C4_key_errors {K V : Type} [DecidableEq K]
    (l : List (K × V)) (k : K) (ks : List K) :
    (mapDict.Get (some l) k = .error .keyError ↔ k ∉ keysOf l) ∧
    ((mapDict.Unset (some l) ks).2 = some .keyError ↔
      ¬ (ks.Nodup ∧ ∀ k' ∈ ks, k' ∈ keysOf l)) ∧
    (mapDict.Pluck (some l) ks = .error .keyError ↔
      ∃ k' ∈ ks, k' ∉ keysOf l) ∧
    ((∀ k' ∈ ks, k' ∈ keysOf l) →
      ∃ m, mapDict.Pluck (some l) ks = .ok (some m) ∧
        (∀ k', k' ∈ keysOf m ↔ k' ∈ ks) ∧
        ∀ k' ∈ ks, lookupKey k' m = lookupKey k' l) := by
  refine ⟨?_, ?_, ?_, ?_⟩
  · rw [mem_keysOf_iff_lookup]
    cases hv : lookupKey k l with
    | none => simp [mapDict.Get, hv]
    | some v => simp [mapDict.Get, hv]
  · have h2 : (mapDict.Unset (some l) ks).2 = (mapDict.unsetLoop l ks).2 := rfl
    rw [h2]
    rcases unsetLoop_snd_cases ks l with hc | hc
    · rw [hc]
      constructor
      · intro hfalse
        exact Option.noConfusion hfalse
      · intro hnot
        exact absurd ((unsetLoop_snd_none_iff ks l).mp hc) hnot
    · rw [hc]
      constructor
      · intro _ hcond
        rw [(unsetLoop_snd_none_iff ks l).mpr hcond] at hc
        exact Option.noConfusion hc
      · intro _
        rfl
  · by_cases hall : ∀ k' ∈ ks, k' ∈ keysOf l
    · obtain ⟨r, hr, _⟩ := pluckLoop_ok l ks hall []
      have hnotex : ¬ ∃ k' ∈ ks, k' ∉ keysOf l := by
        rintro ⟨k', hk', habs⟩
        exact habs (hall k' hk')
      simp [mapDict.Pluck, hr, hnotex]
    · have hex : ∃ k' ∈ ks, k' ∉ keysOf l := by
        push_neg at hall
        rcases hall with ⟨k', hk', habs⟩
        exact ⟨k', hk', habs⟩
      have herr := pluckLoop_error l ks [] hex
      simp [mapDict.Pluck, herr, hex]
  · intro hall
    obtain ⟨r, hr, hlook⟩ := pluckLoop_ok l ks hall []
    refine ⟨r, by simp [mapDict.Pluck, hr], ?_, ?_⟩
    · intro k'
      rw [mem_keysOf_iff_lookup, hlook k']
      by_cases h : k' ∈ ks
      · simp only [h, if_pos]
        simp only [iff_true]
        exact mem_keysOf_iff_lookup.mp (hall k' h)
      · simp [h, lookupKey]
    · intro k' hk'
      rw [hlook k']
      simp [hk']

/-- Witness for the amended claim C4 at a concrete input. -/
theorem C4_key_errors_witness :
    mapDict.Get (some [((1 : Int), (10 : Int))]) 2 = .error .keyError :=
  ((C4_key_errors [((1 : Int), (10 : Int))] 2 []).1).mpr (by decide)

/-- Claim C5: for initialized dicts a and b (with the Go-map key-uniqueness
invariant), `a.Merge(b)` returns a new dict containing every field of a and
every field of b, with b's value taken at every key present in both.
Neither operand is mutated: the source builds the result by `Set`s into a
clone of a, never writing to either operand, which the pure embedding
reflects by construction. -/
theorem C5_merge_content {K V : Type} [DecidableEq K]
    (la lb : List (K × V))
    (hnda : (keysOf la).Nodup) (hndb : (keysOf lb).Nodup) :
    mapDict.Merge (some la) (some lb) =
      .ok (some (lb.foldl (fun acc p => setEntry acc p.1 p.2) la)) ∧
    (∀ k, lookupKey k (lb.foldl (fun acc p => setEntry acc p.1 p.2) la) =
      match lookupKey k lb with
      | some v => some v
      | none => lookupKey k la) ∧
    (∀ k, k ∈ keysOf (lb.foldl (fun acc p => setEntry acc p.1 p.2) la) ↔
      (k ∈ keysOf la ∨ k ∈ keysOf lb)) := by
  refine ⟨?_, ?_, ?_⟩
  · simp only [mapDict.Merge, cloneEntries_eq_self la hnda]
  · intro k
    exact lookup_foldl_set lb hndb la k
  · intro k
    rw [mem_keysOf_iff_lookup, lookup_foldl_set lb hndb la k]
    cases hv : lookupKey k lb with
    | some v =>
      simp [mem_keysOf_iff_lookup, hv]
    | none =>
      simp [mem_keysOf_iff_lookup, hv]

/-- Witness for claim C5 at a concrete input: merging the store mapping 1 to
10 with the store mapping 1 to 11 and 2 to 20 yields the store mapping 1 to
11 (the argument wins the collision) and 2 to 20. -/
theorem C5_merge_content_witness :
    mapDict.Merge (some [((1 : Int), (10 : Int))])
        (some [((1 : Int), (11 : Int)), (2, 20)]) =
      .ok (some [((1 : Int), (11 : Int)), (2, 20)]) :=
  (C5_merge_content [((1 : Int), (10 : Int))] [((1 : Int), (11 : Int)), (2, 20)]
    (by decide) (by decide)).1

/-- Claim C7: for an initialized dict d (with the Go-map key-uniqueness
invariant) and any function fn, `MapDict(d, fn)` returns a new dict whose
key set equals d's key set and whose value at each key k is
`fn(k, d.Get(k))`. d itself is unchanged by the call: the source only reads
d through `ForEach` and writes into a fresh dict, which the pure embedding
reflects by construction. -/
theorem C7_mapdict {K V N : Type} [DecidableEq K]
    (l : List (K × V)) (hnd : (keysOf l).Nodup) (fn : K → V → N) :
    MapDict (some l) fn = .ok (some (l.map (fun p => (p.1, fn p.1 p.2)))) ∧
    keysOf (l.map (fun p => (p.1, fn p.1 p.2))) = keysOf l ∧
    ∀ k v, mapDict.Get (some l) k = .ok v →
      lookupKey k (l.map (fun p => (p.1, fn p.1 p.2))) = some (fn k v) := by
  refine ⟨?_, ?_, ?_⟩
  · simp only [MapDict, mapDict.ForEach]
    rw [foldl_set_build fn l [] hnd (by simp [keysOf])]
    simp
  · simp [keysOf]
  · intro k v hget
    have hv : lookupKey k l = some v := by
      cases hval : lookupKey k l with
      | none => simp [mapDict.Get, hval] at hget
      | some w =>
        simp only [mapDict.Get, hval, Except.ok.injEq] at hget
        rw [hget]
    rw [lookup_map_value fn k l, hv]

/-- Witness for claim C7 at a concrete input. -/
theorem C7_mapdict_witness :
    MapDict (some [((2 : Int), (5 : Int))]) (fun k v => k + v) =
      .ok (some [((2 : Int), (7 : Int))]) := by
  have h := (C7_mapdict [((2 : Int), (5 : Int))] (by decide)
    (fun k v => k + v)).1
  simpa using h

/-- Claim C8: for every initialized dict, `String` returns the fields
rendered as textual-key:value pairs in iteration order, separated by single
commas with no trailing comma and no added whitespace, between braces —
which is exactly the two-brace form `\x7b\x7d` when the dict is empty — with
keys and values rendered by the shared serializer: nil as null, strings
quoted, booleans as true/false, integers as decimal digits. -/
theorem C8_string_format {K V : Type}
    (showK : K → String) (showV : V → String) (l : List (K × V)) :
    mapDict.String showK showV (some l) =
      "\x7b" ++ sepByComma (l.map (fun p => showK p.1 ++ ":" ++ showV p.2)) ++
        "\x7d" ∧
    mapDict.String showK showV (some ([] : List (K × V))) = "\x7b\x7d" ∧
    goToString .goNil = "null" ∧
    goToString (.goStr "ab") = "\"ab\"" ∧
    goToString (.goBool true) = "true" ∧
    goToString (.goBool false) = "false" ∧
    goToString (.goInt 42) = "42" ∧
    goToString (.goInt (-7)) = "-7" := by
  refine ⟨?_, rfl, rfl, rfl, rfl, rfl, rfl, rfl⟩
  simp only [mapDict.String, Option.getD_some]
  rw [stringFields_eq_sepByComma]

/-- Claim C10: the empty dict is an identity for `Merge` up to `Equals`: for
every initialized dict d (with the Go-map key-uniqueness invariant),
`d.Merge(NewDict())` and `NewDict().Merge(d)` both return a dict that
`Equals` d (for the Go zero value z of V). -/
theorem C10_merge_identity {K V : Type} [DecidableEq K] [DecidableEq V]
    (l : List (K × V)) (z : V) (hnd : (keysOf l).Nodup) :
    mapDict.Merge (some l) (NewDict K V) = .ok (some l) ∧
    mapDict.Merge (NewDict K V) (some l) = .ok (some l) ∧
    mapDict.Equals z (some l) (some l) = .ok true := by
  refine ⟨?_, ?_, ?_⟩
  · simp [mapDict.Merge, NewDict, cloneEntries_eq_self l hnd]
  · simp only [mapDict.Merge, NewDict]
    rw [show cloneEntries ([] : List (K × V)) = [] from rfl]
    rw [foldl_set_build (fun _ v => v) l [] hnd (by simp [keysOf])]
    simp
  · simp only [mapDict.Equals, Except.ok.injEq, Bool.and_eq_true,
      decide_eq_true_eq, List.all_eq_true]
    exact ⟨by simp, fun p _ => by simp⟩

/-- Witness for claim C10 at a concrete input. -/
theorem C10_merge_identity_witness :
    mapDict.Merge (some [((1 : Int), (2 : Int))]) (NewDict Int Int) =
      .ok (some [((1 : Int), (2 : Int))]) :=
  (C10_merge_identity [((1 : Int), (2 : Int))] 0 (by decide)).1
